import Mathlib

set_option maxRecDepth 100000

/-!
Verification of the pss-demo repository: a shallow embedding of the
Kademlia overlay-topology manager
(vendor/github.com/ethereum/go-ethereum/swarm/network/kademlia.go) and the
pss messaging engine (the pss package source), together with theorems
settling the frozen claims about them.

Modelling conventions:
- Overlay addresses are byte sequences, embedded as List Nat (each element a
  byte value).  Proximity order follows pot.DefaultPof(256): the number of
  leading shared bits, most-significant bit first within each byte, capped
  at 256.
- The pot containers (known addresses, live connections) are embedded as
  lists; pot.Pot.EachNeighbour, whose contract is to visit elements in order
  of proximity to the pivot, nearest first, is embedded as iteration over
  an insertion sort by descending proximity order (stable, executable).
- Go time.Time is embedded as Nat time units; the zero time.Time value of a
  cache entry is Option.none.
- External collaborators (the DPA chunk store, the whisper envelope backend,
  crypto/rand, the transport send) are fields of the state holding plain
  functions, mirroring the collaborator fields of the Go structs.
- Fallible Go code returns Option / Except; a Go panic surfaces as
  Option.none at the outermost level.
-/

namespace PssDemo

/-! ### Addresses and proximity order -/

/-- Byte length of a full overlay address (pot.Address is a 32-byte array;
the pss package sets addressLength to its length). -/
def addressLength : Nat := 32

/-- The bits of one byte, most significant first (as pot orders them). -/
def byteBits (b : Nat) : List Bool :=
  (List.range 8).map (fun j => decide (b / 2 ^ (7 - j) % 2 = 1))

/-- Bit expansion of a byte sequence. -/
def toBits (a : List Nat) : List Bool :=
  a.flatMap byteBits

/-- Length of the longest common leading run of two bit sequences. -/
def commonBits : List Bool → List Bool → Nat
  | x :: xs, y :: ys => if x = y then commonBits xs ys + 1 else 0
  | _, _ => 0

/-- pot.DefaultPof(256): proximity order of two byte sequences, the index of
the first differing bit, capped at 256. -/
def proximityOrder (a b : List Nat) : Nat :=
  min (commonBits (toBits a) (toBits b)) 256

/-- Comparison used to order peers nearest-first around a reference address:
a peer x precedes y when its proximity order to the reference is at least
that of y. -/
def nearer (ref : List Nat) (p q : List Nat) : Prop :=
  proximityOrder ref q ≤ proximityOrder ref p

instance (ref : List Nat) : DecidableRel (nearer ref) :=
  fun p q => inferInstanceAs (Decidable (proximityOrder ref q ≤ proximityOrder ref p))

/-- Embedding of pot.Pot.EachNeighbour ordering: the peer list sorted by
descending proximity order to the reference address (nearest first). -/
def nearestFirst (ref : List Nat) (l : List (List Nat)) : List (List Nat) :=
  List.insertionSort (nearer ref) l

theorem nearestFirst_perm (ref : List Nat) (l : List (List Nat)) :
    (nearestFirst ref l).Perm l :=
  List.perm_insertionSort _ l

theorem nearestFirst_sorted (ref : List Nat) (l : List (List Nat)) :
    (nearestFirst ref l).Sorted (nearer ref) := by
  letI : IsTotal (List Nat) (nearer ref) :=
    ⟨fun x y => Nat.le_total (proximityOrder ref y) (proximityOrder ref x)⟩
  letI : IsTrans (List Nat) (nearer ref) :=
    ⟨fun _ _ _ h1 h2 => Nat.le_trans h2 h1⟩
  exact List.sorted_insertionSort _ l

theorem nearestFirst_ne_nil (ref : List Nat) (l : List (List Nat)) (h : l ≠ []) :
    nearestFirst ref l ≠ [] := by
  intro hnil
  have hp := nearestFirst_perm ref l
  rw [hnil] at hp
  exact h hp.symm.eq_nil

theorem proximityOrder_le_256 (a b : List Nat) : proximityOrder a b ≤ 256 :=
  Nat.min_le_right _ _

/-! ### Kademlia: neighbourhoodDepth -/

/-- Inner loop of Kademlia.neighbourhoodDepth: EachNeighbour visits live
peers nearest first; each visit increments size and records the visited
proximity order as depth, stopping once size reaches MinProxBinSize. -/
def ndLoop (base : List Nat) (minProxBinSize : Nat) :
    Nat → Nat → List (List Nat) → Nat
  | _, depth, [] => depth
  | size, _, a :: rest =>
    if size + 1 < minProxBinSize then
      ndLoop base minProxBinSize (size + 1) (proximityOrder base a) rest
    else
      proximityOrder base a

/-- Kademlia.neighbourhoodDepth: 0 when fewer than MinProxBinSize live
peers exist, otherwise the proximity order at which the nearest-first
traversal of the live set accumulates MinProxBinSize members. -/
def neighbourhoodDepth (base : List Nat) (conns : List (List Nat))
    (minProxBinSize : Nat) : Nat :=
  if conns.length < minProxBinSize then 0
  else ndLoop base minProxBinSize 0 0 (nearestFirst base conns)

theorem ndLoop_get (base : List Nat) (k : Nat) :
    ∀ (l : List (List Nat)) (j size depth : Nat), k = size + j + 1 →
      (h : j < l.length) →
      ndLoop base k size depth l = proximityOrder base (l.get ⟨j, h⟩) := by
  intro l
  induction l with
  | nil => intro j size depth hk h; exact absurd h (by simp)
  | cons a rest ih =>
    intro j size depth hk h
    by_cases hlt : size + 1 < k
    · have hj : j ≠ 0 := by omega
      have hr : j - 1 < rest.length := by
        simp only [List.length_cons] at h; omega
      have hg : (a :: rest).get ⟨j, h⟩ = rest.get ⟨j - 1, hr⟩ := by
        simp [List.get_eq_getElem, List.getElem_cons, hj]
      simp only [ndLoop, if_pos hlt]
      rw [hg, ih (j - 1) (size + 1) (proximityOrder base a) (by omega) hr]
    · have hj0 : j = 0 := by omega
      subst hj0
      simp only [ndLoop, if_neg hlt]
      simp [List.get_eq_getElem]

/-! ### Kademlia: Register -/

/-- A Kademlia table entry: peer address, time last seen, redial attempt
counter, and whether the underlying peer handle is a live connection. -/
structure KEntry where
  addr : List Nat
  seenAt : Nat
  retries : Nat
  live : Bool
deriving DecidableEq

/-- newEntry: a fresh known-address record, seen now, with zero retries. -/
def newEntry (p : List Nat) (now : Nat) : KEntry :=
  ⟨p, now, 0, false⟩

/-- The Kademlia table state needed by Register: the base address and the
known-address index. -/
structure Kad where
  base : List Nat
  addrs : List KEntry
deriving DecidableEq

/-- pot.Swap on the known-address index keyed by address: when the address
is absent insert a fresh entry, when present keep the existing entry. -/
def swapInsert (now : Nat) (p : List Nat) (addrs : List KEntry) : List KEntry :=
  if addrs.any (fun e => e.addr == p) then addrs else addrs ++ [newEntry p now]

inductive RegError where
  | isSelf (base : List Nat)
deriving DecidableEq

/-- Kademlia.Register: walk the supplied addresses, failing with the
is-self error at the first address equal to the base address, otherwise
swap-inserting each into the known-address index.  The returned table is
the state at the moment of return: mutations made before an error are kept
(the Go method mutates k.addrs in place). -/
def register (now : Nat) : Kad → List (List Nat) → Kad × Option RegError
  | k, [] => (k, none)
  | k, p :: rest =>
    if p = k.base then (k, some (RegError.isSelf k.base))
    else register now { k with addrs := swapInsert now p k.addrs } rest

/-! ### Kademlia: callable -/

/-- Fuel-indexed body of the retry loop in Kademlia.callable:
for delta := timeAgo; delta > RetryInterval; delta /= div retries++.
The divisor div is the post-jitter retry exponent; the loop only
terminates when div is at least 2 (true in every configuration of this
repository, where RetryExponent = 2 makes the jitter term zero), so the
model guards on 2 ≤ div.  The fuel argument only makes the recursion
structural; retryLoop is fuel-independent once fuel ≥ delta. -/
def retryLoop (retryInterval d : Nat) : Nat → Nat → Nat
  | 0, _ => 0
  | fuel + 1, t =>
    if retryInterval < t ∧ 2 ≤ d then retryLoop retryInterval d fuel (t / d) + 1
    else 0

/-- The allowed number of retries computed by Kademlia.callable from the
time elapsed since the peer was last seen. -/
def allowedRetries (retryInterval d timeAgo : Nat) : Nat :=
  retryLoop retryInterval d timeAgo timeAgo

/-- Kademlia.callable: returns no address when the entry is live or its
retry counter exceeds MaxRetries; otherwise compares the elapsed-time
retry allowance against the entry's retry counter, consults the optional
reachability predicate, and on success returns the address and increments
the retry counter. -/
def callable (maxRetries retryInterval d : Nat)
    (reachable : Option (List Nat → Bool)) (now : Nat) (e : KEntry) :
    Option (List Nat) × KEntry :=
  if e.live || decide (maxRetries < e.retries) then (none, e)
  else
    let timeAgo := now - e.seenAt
    let retries := allowedRetries retryInterval d timeAgo
    if retries < e.retries then (none, e)
    else if (match reachable with | some r => !(r e.addr) | none => false) then (none, e)
    else (some e.addr, { e with retries := e.retries + 1 })

theorem retryLoop_fuel_mono (retryInterval d : Nat) :
    ∀ (f2 f1 t1 t2 : Nat), t1 ≤ f1 → t2 ≤ f2 → t1 ≤ t2 →
      retryLoop retryInterval d f1 t1 ≤ retryLoop retryInterval d f2 t2 := by
  intro f2
  induction f2 with
  | zero =>
    intro f1 t1 t2 _ hf2 ht
    have ht2 : t2 = 0 := by omega
    have ht1 : t1 = 0 := by omega
    subst ht1; subst ht2
    cases f1 with
    | zero => exact Nat.le_refl _
    | succ g1 => simp [retryLoop]
  | succ g2 ih =>
    intro f1 t1 t2 hf1 hf2 ht
    by_cases hc1 : retryInterval < t1 ∧ 2 ≤ d
    · have hc2 : retryInterval < t2 ∧ 2 ≤ d := ⟨by omega, hc1.2⟩
      cases f1 with
      | zero => simp [retryLoop]
      | succ g1 =>
        simp only [retryLoop, if_pos hc1, if_pos hc2]
        have hd1 : t1 / d ≤ g1 := by
          have : t1 / d < t1 := Nat.div_lt_self (by omega) (by omega)
          omega
        have hd2 : t2 / d ≤ g2 := by
          have : t2 / d < t2 := Nat.div_lt_self (by omega) (by omega)
          omega
        exact Nat.succ_le_succ (ih g1 (t1 / d) (t2 / d) hd1 hd2
          (Nat.div_le_div_right ht))
    · cases f1 with
      | zero => simp [retryLoop]
      | succ g1 => simp only [retryLoop, if_neg hc1]; exact Nat.zero_le _

theorem allowedRetries_mono (retryInterval d t1 t2 : Nat) (h : t1 ≤ t2) :
    allowedRetries retryInterval d t1 ≤ allowedRetries retryInterval d t2 :=
  retryLoop_fuel_mono retryInterval d t2 t1 t1 t2 (Nat.le_refl _) (Nat.le_refl _) h

/-! ### Pss: data model -/

/-- 32-byte message category identifier (opaque for these claims). -/
abbrev Topic := Nat

/-- Digest used to key the flood-guard cache (pssDigest, truncated chunk
hash).  The Go zero value pssDigest\x7b\x7d is zeroDigest. -/
abbrev Digest := Nat

def zeroDigest : Digest := 0

/-- Opaque whisper envelope (external collaborator output). -/
abbrev Envelope := Nat

/-- PssMsg: destination address (1..N bytes, may be only a leading
portion of a full address), expiry timestamp, opaque encrypted payload. -/
structure PssMsg where
  dest : List Nat
  expire : Nat
  payload : Envelope
deriving DecidableEq

/-- pssCacheEntry: flood-guard record.  expiresAt = none embeds the zero
time.Time value. -/
structure CacheEntry where
  expiresAt : Option Nat
  receivedFrom : List Nat
deriving DecidableEq

/-- pssPeer: routing information bound to one (key id, topic) pair. -/
structure PssPeer where
  address : Option (List Nat)
  protectedFlag : Bool
deriving DecidableEq

/-- The Pss node state and its collaborators.  Key ids (whisper symkey ids
and hex-encoded public keys, strings in Go) are embedded as Nat tokens;
keyBytes plays the role of common.FromHex on a public-key id.  The overlay
(network.Kademlia) contributes baseAddr, conns and minProxBinSize; the
whisper backend contributes symKeyStore and wrap; the DPA chunk store
contributes store (none embeds a store error); randPadding is the result
of crypto/rand.Read; peerSend tells whether the transport send to a given
peer address succeeds; processOk is the outcome of Pss.process (decrypt
and dispatch) on a message. -/
structure Pss where
  baseAddr : List Nat
  conns : List (List Nat)
  minProxBinSize : Nat
  msgTTL : Nat
  cacheTTL : Nat
  paddingByteSize : Nat
  fwdCache : List (Digest × CacheEntry)
  symKeyPool : List ((Nat × Topic) × PssPeer)
  pubKeyPool : List ((Nat × Topic) × PssPeer)
  symKeyStore : Nat → Option (List Nat)
  keyBytes : Nat → List Nat
  store : PssMsg → Option Digest
  wrap : Bool → List Nat → Topic → List Nat → List Nat → Option Envelope
  randPadding : Option (List Nat)
  peerSend : List Nat → Bool
  processOk : PssMsg → Bool

/-! ### Pss: flood-guard cache -/

def lookupCache (cache : List (Digest × CacheEntry)) (d : Digest) :
    Option CacheEntry :=
  (cache.find? (fun e => e.1 == d)).map (fun e => e.2)

def setCache (cache : List (Digest × CacheEntry)) (d : Digest)
    (e : CacheEntry) : List (Digest × CacheEntry) :=
  match cache with
  | [] => [(d, e)]
  | (d0, e0) :: rest =>
    if d0 == d then (d, e) :: rest else (d0, e0) :: setCache rest d e

/-- Pss.checkFwdCache: a digest is blocked when its entry is unexpired,
or, for an entry whose expiry is the zero time, when the probed address
equals the recorded originating address (nil is embedded as []). -/
def checkFwdCache (cache : List (Digest × CacheEntry)) (now : Nat)
    (addr : List Nat) (d : Digest) : Bool :=
  match lookupCache cache d with
  | some entry =>
    match entry.expiresAt with
    | some t => decide (now < t)
    | none => addr == entry.receivedFrom
  | none => false

/-- Pss.addFwdCache: fetch or create the digest's entry and stamp its
expiry cacheTTL from now. -/
def addFwdCache (cache : List (Digest × CacheEntry)) (now ttl : Nat)
    (d : Digest) : List (Digest × CacheEntry) :=
  let entry := (lookupCache cache d).getD ⟨none, []⟩
  setCache cache d { entry with expiresAt := some (now + ttl) }

/-! ### Pss: forwarding -/

/-- The full-length destination reference built at the top of Pss.forward:
msg.To copied into a zeroed addressLength-byte buffer. -/
def zeroPadTo (dest : List Nat) : List Nat :=
  dest.take addressLength ++ List.replicate (addressLength - dest.length) 0

/-- The digest Pss.forward works with: the chunk-store digest of the
serialized message, or the zero digest when the store call fails (the Go
code logs the error and carries on with the zero-valued digest). -/
def msgDigest (ps : Pss) (msg : PssMsg) : Digest :=
  (ps.store msg).getD zeroDigest

/-- The condition under which forwarding continues past a peer that was
sent to: the destination is a strict leading portion of a full address and
fully matches the peer's address up to its length. -/
def partialMatch (msgTo p : List Nat) : Prop :=
  msgTo.length < addressLength ∧ msgTo = p.take msgTo.length

instance (msgTo p : List Nat) : Decidable (partialMatch msgTo p) :=
  inferInstanceAs (Decidable (_ ∧ _))

/-- The iteration body of Pss.forward over live peers nearest the padded
destination (EachConn with proximity cap 256).  Returns the addresses to
which a transport send was attempted, in order, and the count of
successful sends.  Per peer: peers beyond the proximity cap and peers
whose (address, digest) pair hits the flood-guard cache are skipped;
otherwise a send is attempted; a failed send continues; after a
successful send iteration continues exactly when the strict-prefix
condition holds or the peer is within neighbourhood depth (proxbin),
and stops otherwise. -/
def fwdLoop (cache : List (Digest × CacheEntry)) (send : List Nat → Bool)
    (now : Nat) (msgTo dest : List Nat) (depth : Nat) (d : Digest) :
    List (List Nat) → List (List Nat) × Nat
  | [] => ([], 0)
  | p :: rest =>
    if 256 < proximityOrder dest p then
      fwdLoop cache send now msgTo dest depth d rest
    else if checkFwdCache cache now p d then
      fwdLoop cache send now msgTo dest depth d rest
    else if send p = false then
      let r := fwdLoop cache send now msgTo dest depth d rest
      (p :: r.1, r.2)
    else if partialMatch msgTo p then
      let r := fwdLoop cache send now msgTo dest depth d rest
      (p :: r.1, r.2 + 1)
    else if depth ≤ proximityOrder dest p then
      let r := fwdLoop cache send now msgTo dest depth d rest
      (p :: r.1, r.2 + 1)
    else ([p], 1)

/-- Result of Pss.forward: the state after the call (the flood-guard
cache may gain an entry), the peers a send was attempted to, and the
number of successful sends.  Pss.forward itself always returns a nil
error. -/
structure FwdOut where
  ps : Pss
  attempted : List (List Nat)
  sent : Nat

/-- The peer iteration of Pss.forward applied to the node's live peers
sorted nearest to the zero-padded destination, with the neighbourhood
depth of the overlay as proxbin threshold. -/
def fwdRun (ps : Pss) (now : Nat) (msg : PssMsg) : List (List Nat) × Nat :=
  fwdLoop ps.fwdCache ps.peerSend now msg.dest (zeroPadTo msg.dest)
    (neighbourhoodDepth ps.baseAddr ps.conns ps.minProxBinSize)
    (msgDigest ps msg) (nearestFirst (zeroPadTo msg.dest) ps.conns)

/-- Pss.forward: zero-pad the destination, compute the cache digest
(zero digest when the chunk store fails), drop silently on a flood-guard
hit, otherwise iterate live peers nearest the destination attempting
sends, and record the digest in the cache when at least one send
succeeded. -/
def forward (ps : Pss) (now : Nat) (msg : PssMsg) : FwdOut :=
  if checkFwdCache ps.fwdCache now [] (msgDigest ps msg) then ⟨ps, [], 0⟩
  else
    let r := fwdRun ps now msg
    if r.2 = 0 then ⟨ps, r.1, 0⟩
    else ⟨{ ps with
            fwdCache := addFwdCache ps.fwdCache now ps.cacheTTL (msgDigest ps msg) },
          r.1, r.2⟩

/-! ### Pss: inbound message handling -/

/-- Pss.isSelfPossibleRecipient: compare msg.To against the local base
address truncated to len(msg.To).  The Go code slices the base address
with msg.To's length, which panics when msg.To is longer than the base
address; the panic is embedded as none. -/
def isSelfPossibleRecipient (localAddr dest : List Nat) : Option Bool :=
  if dest.length ≤ localAddr.length then some (dest == localAddr.take dest.length)
  else none

/-- Observable outcome of Pss.handlePssMsg on a well-typed PssMsg. -/
inductive HandleOutcome where
  | droppedExpired
  | invalidTTL
  | forwardedNotForUs (out : FwdOut)
  | processedLocal
  | forwardedAfterProcess (out : FwdOut)

def HandleOutcome.isInvalidTTL : HandleOutcome → Bool
  | .invalidTTL => true
  | _ => false

def HandleOutcome.didForward : HandleOutcome → Bool
  | .forwardedNotForUs _ => true
  | .forwardedAfterProcess _ => true
  | _ => false

def HandleOutcome.attemptedPeers : HandleOutcome → List (List Nat)
  | .forwardedNotForUs out => out.attempted
  | .forwardedAfterProcess out => out.attempted
  | _ => []

/-- Pss.handlePssMsg: when the node is not a possible recipient, drop
silently if the expiry has passed, fail with the Invalid TTL error if the
expiry lies beyond now + msgTTL, and otherwise forward; when the node is
a possible recipient, process, and forward when processing fails.  The
recipient check can panic (none) on an over-long destination. -/
def handlePssMsg (ps : Pss) (now : Nat) (msg : PssMsg) :
    Option HandleOutcome :=
  match isSelfPossibleRecipient ps.baseAddr msg.dest with
  | none => none
  | some false =>
    if msg.expire < now then some HandleOutcome.droppedExpired
    else if now + ps.msgTTL < msg.expire then some HandleOutcome.invalidTTL
    else some (HandleOutcome.forwardedNotForUs (forward ps now msg))
  | some true =>
    if ps.processOk msg then some HandleOutcome.processedLocal
    else some (HandleOutcome.forwardedAfterProcess (forward ps now msg))

/-! ### Pss: sending -/

inductive SendErr where
  | zeroKey
  | randFail
  | shortPadding
  | wrapFail
  | symKeyMissing (id : Nat)
  | invalidTopic (id : Nat) (t : Topic)
  | noAddressHint (id : Nat) (t : Topic)
  | invalidPubKey
deriving DecidableEq

/-- Lookup in a per-topic key pool. -/
def plookup (pool : List ((Nat × Topic) × PssPeer)) (id : Nat) (t : Topic) :
    Option PssPeer :=
  (pool.find? (fun e => e.1 == (id, t))).map (fun e => e.2)

/-- Pss.send: fail on a zero-length key, generate padding via crypto/rand
(failing on a read error or a short read), build and encrypt the whisper
envelope (NewSentMessage and Wrap failures are both wrapFail), then wrap
the envelope and a fresh expiry in a PssMsg and forward it. -/
def send (ps : Pss) (now : Nat) (dest : List Nat) (topic : Topic)
    (msg : List Nat) (asym : Bool) (key : List Nat) : Except SendErr FwdOut :=
  if key = [] then Except.error SendErr.zeroKey
  else
    match ps.randPadding with
    | none => Except.error SendErr.randFail
    | some padding =>
      if padding.length < ps.paddingByteSize then Except.error SendErr.shortPadding
      else
        match ps.wrap asym key topic msg padding with
        | none => Except.error SendErr.wrapFail
        | some env =>
          Except.ok (forward ps now ⟨dest, now + ps.msgTTL, env⟩)

/-- Pss.SendSym: resolve the symmetric key bytes from the whisper backend,
then the (key id, topic) binding and its routing-hint address, and send;
the error from send is returned to the caller. -/
def sendSym (ps : Pss) (now : Nat) (symkeyid : Nat) (topic : Topic)
    (msg : List Nat) : Except SendErr FwdOut :=
  match ps.symKeyStore symkeyid with
  | none => Except.error (SendErr.symKeyMissing symkeyid)
  | some symkey =>
    match plookup ps.symKeyPool symkeyid topic with
    | none => Except.error (SendErr.invalidTopic symkeyid topic)
    | some psp =>
      match psp.address with
      | none => Except.error (SendErr.noAddressHint symkeyid topic)
      | some addr => send ps now addr topic msg false symkey

/-- Pss.SendAsym: decode the public key id (crypto.ToECDSAPub is nil
exactly when the decoded bytes are empty), resolve the (key id, topic)
binding and its routing-hint address, then call send discarding its
result: the Go code ignores send's return value and returns nil. -/
def sendAsym (ps : Pss) (now : Nat) (pubkeyid : Nat) (topic : Topic)
    (msg : List Nat) : Except SendErr (Option FwdOut) :=
  if ps.keyBytes pubkeyid = [] then Except.error SendErr.invalidPubKey
  else
    match plookup ps.pubKeyPool pubkeyid topic with
    | none => Except.error (SendErr.invalidTopic pubkeyid topic)
    | some psp =>
      match psp.address with
      | none => Except.error (SendErr.noAddressHint pubkeyid topic)
      | some addr =>
        Except.ok (match send ps now addr topic msg true (ps.keyBytes pubkeyid) with
          | Except.ok out => some out
          | Except.error _ => none)

/-- Reference traversal shape: keep elements while the predicate holds and
include the first element on which it fails. -/
def takeThrough (f : α → Bool) : List α → List α
  | [] => []
  | a :: rest => if f a then a :: takeThrough f rest else [a]

/-- A peer is actually tried by the forward loop (not skipped): it is
within the proximity cap and its (address, digest) pair is not already in
the flood-guard cache. -/
def fwdVisitable (cache : List (Digest × CacheEntry)) (now : Nat)
    (dest : List Nat) (d : Digest) (p : List Nat) : Bool :=
  !(decide (256 < proximityOrder dest p)) && !(checkFwdCache cache now p d)

/-- The condition under which the forward loop continues past a tried
peer: the transport send failed, or the strict-prefix condition holds, or
the peer is within neighbourhood depth. -/
def fwdContinue (send : List Nat → Bool) (msgTo dest : List Nat)
    (depth : Nat) (p : List Nat) : Bool :=
  !(send p) || decide (partialMatch msgTo p)
    || decide (depth ≤ proximityOrder dest p)

/-! ### Helper lemmas about the flood-guard cache and forward -/

theorem lookupCache_setCache_self (c : List (Digest × CacheEntry))
    (d : Digest) (e : CacheEntry) :
    lookupCache (setCache c d e) d = some e := by
  induction c with
  | nil => simp [setCache, lookupCache]
  | cons hd tl ih =>
    obtain ⟨d0, e0⟩ := hd
    by_cases h : d0 = d
    · subst h; simp [setCache, lookupCache]
    · simp only [setCache, beq_iff_eq, if_neg h, lookupCache]
      rw [List.find?_cons_of_neg]
      · simp only [lookupCache] at ih
        exact ih
      · simp [h]

theorem checkFwdCache_addFwdCache_self (c : List (Digest × CacheEntry))
    (now1 ttl now2 : Nat) (a : List Nat) (d : Digest) :
    checkFwdCache (addFwdCache c now1 ttl d) now2 a d
      = decide (now2 < now1 + ttl) := by
  simp [checkFwdCache, addFwdCache, lookupCache_setCache_self]

theorem forward_blocked (ps : Pss) (now : Nat) (msg : PssMsg)
    (h : checkFwdCache ps.fwdCache now [] (msgDigest ps msg) = true) :
    forward ps now msg = ⟨ps, [], 0⟩ := by
  simp [forward, h]

theorem forward_attempted (ps : Pss) (now : Nat) (msg : PssMsg)
    (h : checkFwdCache ps.fwdCache now [] (msgDigest ps msg) = false) :
    (forward ps now msg).attempted = (fwdRun ps now msg).1 := by
  simp only [forward, h, Bool.false_eq_true, if_false]
  split <;> rfl

theorem forward_sent_pos (ps : Pss) (now : Nat) (msg : PssMsg)
    (h : 0 < (forward ps now msg).sent) :
    checkFwdCache ps.fwdCache now [] (msgDigest ps msg) = false ∧
    (forward ps now msg).ps
      = { ps with
          fwdCache := addFwdCache ps.fwdCache now ps.cacheTTL (msgDigest ps msg) } := by
  by_cases hb : checkFwdCache ps.fwdCache now [] (msgDigest ps msg) = true
  · rw [forward_blocked ps now msg hb] at h
    simp at h
  · rw [Bool.not_eq_true] at hb
    refine ⟨hb, ?_⟩
    by_cases hz : (fwdRun ps now msg).2 = 0
    · simp [forward, hb, hz] at h
    · simp [forward, hb, hz]

theorem fwdLoop_attempted_sublist (cache : List (Digest × CacheEntry))
    (send : List Nat → Bool) (now : Nat) (msgTo dest : List Nat)
    (depth : Nat) (d : Digest) :
    ∀ l, (fwdLoop cache send now msgTo dest depth d l).1.Sublist l := by
  intro l
  induction l with
  | nil => simp [fwdLoop]
  | cons p rest ih =>
    simp only [fwdLoop]
    split_ifs with h1 h2 h3 h4 h5
    · exact ih.cons p
    · exact ih.cons p
    · exact ih.cons₂ p
    · exact ih.cons₂ p
    · exact ih.cons₂ p
    · exact (List.nil_sublist rest).cons₂ p

theorem fwdLoop_cons_ne_nil (cache : List (Digest × CacheEntry))
    (send : List Nat → Bool) (now : Nat) (msgTo dest : List Nat)
    (depth : Nat) (d : Digest) (p : List Nat) (rest : List (List Nat))
    (h1 : ¬ 256 < proximityOrder dest p)
    (h2 : checkFwdCache cache now p d = false) :
    (fwdLoop cache send now msgTo dest depth d (p :: rest)).1 ≠ [] := by
  simp only [fwdLoop, if_neg h1, h2, Bool.false_eq_true, if_false]
  split_ifs <;> simp

theorem fwdLoop_eq_takeThrough (cache : List (Digest × CacheEntry))
    (send : List Nat → Bool) (now : Nat) (msgTo dest : List Nat)
    (depth : Nat) (d : Digest) :
    ∀ l, (fwdLoop cache send now msgTo dest depth d l).1
      = takeThrough (fwdContinue send msgTo dest depth)
          (l.filter (fwdVisitable cache now dest d)) := by
  intro l
  induction l with
  | nil => simp [fwdLoop, takeThrough]
  | cons p rest ih =>
    by_cases h1 : 256 < proximityOrder dest p
    · have hv : fwdVisitable cache now dest d p = false := by
        simp [fwdVisitable, h1]
      simp [fwdLoop, if_pos h1, List.filter_cons, hv, ih]
    · by_cases h2 : checkFwdCache cache now p d = true
      · have hv : fwdVisitable cache now dest d p = false := by
          simp [fwdVisitable, h2]
        simp [fwdLoop, if_neg h1, h2, List.filter_cons, hv, ih]
      · rw [Bool.not_eq_true] at h2
        have hv : fwdVisitable cache now dest d p = true := by
          simp [fwdVisitable, h1, h2]
        by_cases h3 : send p = false
        · have hc : fwdContinue send msgTo dest depth p = true := by
            simp [fwdContinue, h3]
          simp [fwdLoop, if_neg h1, h2, h3, List.filter_cons, hv, takeThrough, hc, ih]
        · rw [Bool.not_eq_false] at h3
          by_cases h4 : partialMatch msgTo p
          · have hc : fwdContinue send msgTo dest depth p = true := by
              simp [fwdContinue, h4]
            simp [fwdLoop, if_neg h1, h2, h3, if_pos h4, List.filter_cons, hv,
              takeThrough, hc, ih]
          · by_cases h5 : depth ≤ proximityOrder dest p
            · have hc : fwdContinue send msgTo dest depth p = true := by
                simp [fwdContinue, h5]
              simp [fwdLoop, if_neg h1, h2, h3, if_neg h4, if_pos h5,
                List.filter_cons, hv, takeThrough, hc, ih]
            · have hc : fwdContinue send msgTo dest depth p = false := by
                simp [fwdContinue, h3, h4, h5]
              simp [fwdLoop, if_neg h1, h2, h3, if_neg h4, if_neg h5,
                List.filter_cons, hv, takeThrough, hc]

/-! ### Helper lemmas about Register -/

theorem register_self_err (now : Nat) :
    ∀ (peers : List (List Nat)) (k : Kad), (∃ p ∈ peers, p = k.base) →
      (register now k peers).2 = some (RegError.isSelf k.base) := by
  intro peers
  induction peers with
  | nil => intro k h; simp at h
  | cons p rest ih =>
    intro k h
    by_cases hp : p = k.base
    · simp [register, hp]
    · have hex : ∃ q ∈ rest, q = k.base := by
        rcases h with ⟨q, hq, he⟩
        rcases List.mem_cons.mp hq with h1 | h2
        · exact absurd (h1 ▸ he) hp
        · exact ⟨q, h2, he⟩
      simp only [register, if_neg hp]
      exact ih { k with addrs := swapInsert now p k.addrs } hex

theorem swapInsert_mem_self (now : Nat) (p : List Nat) (addrs : List KEntry) :
    ∃ e ∈ swapInsert now p addrs, e.addr = p := by
  by_cases hany : (addrs.any fun e => e.addr == p) = true
  · rcases List.any_eq_true.mp hany with ⟨e, he, hbeq⟩
    exact ⟨e, by simp [swapInsert, hany, he], by simpa using hbeq⟩
  · refine ⟨newEntry p now, ?_, rfl⟩
    rw [Bool.not_eq_true] at hany
    simp [swapInsert, hany]

theorem swapInsert_mem_mono (now : Nat) (q p : List Nat) (addrs : List KEntry)
    (h : ∃ e ∈ addrs, e.addr = p) :
    ∃ e ∈ swapInsert now q addrs, e.addr = p := by
  rcases h with ⟨e, he, hp⟩
  unfold swapInsert
  split
  · exact ⟨e, he, hp⟩
  · exact ⟨e, List.mem_append_left _ he, hp⟩

theorem register_mem_mono (now : Nat) (p : List Nat) :
    ∀ (peers : List (List Nat)) (k : Kad), (∃ e ∈ k.addrs, e.addr = p) →
      ∃ e ∈ (register now k peers).1.addrs, e.addr = p := by
  intro peers
  induction peers with
  | nil => intro k h; exact h
  | cons q rest ih =>
    intro k h
    by_cases hq : q = k.base
    · simpa [register, hq] using h
    · simp only [register, if_neg hq]
      exact ih { k with addrs := swapInsert now q k.addrs }
        (swapInsert_mem_mono now q p k.addrs h)

/-! ### Claim theorems -/

/-- C1: for every state of the live-connection set, neighbourhoodDepth
returns 0 whenever the number of live peers is less than MinProxBinSize,
and otherwise returns the proximity order, relative to the base address,
of the MinProxBinSize-th nearest live peer: the entry at position
MinProxBinSize - 1 of the nearest-first ordering, which the first two
conjuncts show to be a permutation of the live set sorted by descending
proximity to the base address. -/
theorem neighbourhoodDepth_spec (base : List Nat) (conns : List (List Nat))
    (k : Nat) (hk : 0 < k) :
    (nearestFirst base conns).Sorted (nearer base) ∧
    (nearestFirst base conns).Perm conns ∧
    (conns.length < k → neighbourhoodDepth base conns k = 0) ∧
    ∀ h : k ≤ conns.length,
      neighbourhoodDepth base conns k
        = proximityOrder base ((nearestFirst base conns).get
            ⟨k - 1, by
              have hlen := (nearestFirst_perm base conns).length_eq
              omega⟩) := by
  refine ⟨nearestFirst_sorted base conns, nearestFirst_perm base conns, ?_, ?_⟩
  · intro h
    simp [neighbourhoodDepth, h]
  · intro h
    have hlen := (nearestFirst_perm base conns).length_eq
    rw [neighbourhoodDepth, if_neg (by omega)]
    exact ndLoop_get base k (nearestFirst base conns) (k - 1) 0 0 (by omega)
      (by omega)

/-- Witness for neighbourhoodDepth_spec at a concrete live set: with
MinProxBinSize 2, three live peers at proximity orders 0, 1 and 7 from
base [0] give depth 1, and a single live peer gives depth 0. -/
theorem neighbourhoodDepth_spec_witness :
    neighbourhoodDepth [0] [[128], [64], [1]] 2 = 1 ∧
    neighbourhoodDepth [0] [[128]] 2 = 0 := by
  constructor
  · have h := (neighbourhoodDepth_spec [0] [[128], [64], [1]] 2 (by decide)).2.2.2
      (by decide)
    rw [h]
    decide
  · exact (neighbourhoodDepth_spec [0] [[128]] 2 (by decide)).2.2.1 (by decide)

/-- C4: Register fails with the is-self error whenever any supplied
address equals the base address, and registering the same address twice
leaves exactly one known record with the first-seen entry untouched. -/
theorem register_self_and_idem (k : Kad) (now1 now2 : Nat)
    (peers : List (List Nat)) (a : List Nat) :
    ((∃ p ∈ peers, p = k.base) →
      (register now1 k peers).2 = some (RegError.isSelf k.base)) ∧
    (a ≠ k.base → (∀ e ∈ k.addrs, e.addr ≠ a) →
      (register now2 (register now1 k [a]).1 [a]).1 = (register now1 k [a]).1 ∧
      ((register now2 (register now1 k [a]).1 [a]).1.addrs.filter
          (fun e => e.addr == a)) = [newEntry a now1]) := by
  refine ⟨register_self_err now1 peers k, ?_⟩
  intro h1 h2
  have hany : (k.addrs.any fun e => e.addr == a) = false := by
    rw [List.any_eq_false]
    intro e he
    simpa using h2 e he
  have hk1 : (register now1 k [a]).1
      = ⟨k.base, k.addrs ++ [newEntry a now1]⟩ := by
    simp [register, h1, swapInsert, hany]
  have hk2 : (register now2 (register now1 k [a]).1 [a]).1
      = (register now1 k [a]).1 := by
    rw [hk1]
    simp [register, h1, swapInsert, List.any_append, newEntry]
  refine ⟨hk2, ?_⟩
  rw [hk2, hk1]
  have hnil : (k.addrs.filter fun e => e.addr == a) = [] := by
    rw [List.filter_eq_nil_iff]
    intro e he
    simpa using h2 e he
  simp [List.filter_append, hnil, newEntry]

/-- Witness for register_self_and_idem: registering the base address [9]
fails with is-self, and registering [1] twice leaves exactly the one
entry created by the first registration. -/
theorem register_self_and_idem_witness :
    (register 0 ⟨[9], []⟩ [[9]]).2 = some (RegError.isSelf [9]) ∧
    (register 1 (register 0 ⟨[9], []⟩ [[1]]).1 [[1]]).1
      = (register 0 ⟨[9], []⟩ [[1]]).1 ∧
    ((register 1 (register 0 ⟨[9], []⟩ [[1]]).1 [[1]]).1.addrs.filter
        (fun e => e.addr == [1])) = [newEntry [1] 0] := by
  have h := register_self_and_idem ⟨[9], []⟩ 0 1 [[9]] [1]
  exact ⟨h.1 ⟨[9], by simp, rfl⟩, (h.2 (by decide) (by simp)).1,
    (h.2 (by decide) (by simp)).2⟩

/-- C10: Register is not atomic on error: when the supplied list is
pre ++ base :: rest with the base address not among pre, Register returns
the is-self error while every address of pre has already been inserted
into, and remains in, the known-address index of the returned state. -/
theorem register_partial_state (now : Nat) (k : Kad)
    (pre rest : List (List Nat)) (hpre : k.base ∉ pre) :
    (register now k (pre ++ k.base :: rest)).2
      = some (RegError.isSelf k.base) ∧
    ∀ p ∈ pre, ∃ e ∈ (register now k (pre ++ k.base :: rest)).1.addrs,
      e.addr = p := by
  induction pre generalizing k with
  | nil => simp [register]
  | cons q qre ih =>
    have hq : q ≠ k.base := fun he => hpre (he ▸ List.mem_cons_self q qre)
    have hpre' : k.base ∉ qre := fun hm => hpre (List.mem_cons_of_mem q hm)
    have IH := ih { k with addrs := swapInsert now q k.addrs } hpre'
    simp only [List.cons_append, register, if_neg hq]
    refine ⟨IH.1, ?_⟩
    intro p hp
    rcases List.mem_cons.mp hp with h1 | h2
    · subst h1
      exact register_mem_mono now p (qre ++ k.base :: rest)
        { k with addrs := swapInsert now p k.addrs }
        (swapInsert_mem_self now p k.addrs)
    · exact IH.2 p h2

/-- Witness for register_partial_state: registering [[1], [9], [2]] on a
table with base [9] fails with is-self while [1] is already recorded. -/
theorem register_partial_state_witness :
    (register 0 ⟨[9], []⟩ ([[1]] ++ [9] :: [[2]])).2
      = some (RegError.isSelf [9]) ∧
    ∃ e ∈ (register 0 ⟨[9], []⟩ ([[1]] ++ [9] :: [[2]])).1.addrs,
      e.addr = [1] := by
  have h := register_partial_state 0 ⟨[9], []⟩ [[1]] [[2]] (by decide)
  exact ⟨h.1, h.2 [1] (by simp)⟩

/-- C5: callable never returns an address for a live entry or one whose
retries counter exceeds MaxRetries, and for a fixed entry (fixed retries
count) and fixed post-jitter divisor of at least 2, eligibility is
monotonically non-decreasing in the elapsed time since the peer was last
seen. -/
theorem callable_guard_monotone (maxRetries retryInterval d : Nat)
    (reachable : Option (List Nat → Bool)) (e : KEntry) (now1 now2 : Nat) :
    ((e.live = true ∨ maxRetries < e.retries) →
      (callable maxRetries retryInterval d reachable now1 e).1 = none) ∧
    (2 ≤ d → now1 ≤ now2 →
      ((callable maxRetries retryInterval d reachable now1 e).1).isSome →
      ((callable maxRetries retryInterval d reachable now2 e).1).isSome) := by
  constructor
  · intro h
    have hg : (e.live || decide (maxRetries < e.retries)) = true := by
      rcases h with h | h
      · simp [h]
      · simp [h]
    simp [callable, hg]
  · intro _ hle hsome
    by_cases hg : (e.live || decide (maxRetries < e.retries)) = true
    · simp [callable, hg] at hsome
    · rw [Bool.not_eq_true] at hg
      by_cases hr1 : allowedRetries retryInterval d (now1 - e.seenAt) < e.retries
      · simp [callable, hg, hr1] at hsome
      · have hr2 : ¬ allowedRetries retryInterval d (now2 - e.seenAt)
            < e.retries := by
          have hm := allowedRetries_mono retryInterval d (now1 - e.seenAt)
            (now2 - e.seenAt) (Nat.sub_le_sub_right hle _)
          omega
        cases reachable with
        | none => simp [callable, hg, hr2]
        | some r =>
          by_cases hreach : r e.addr = true
          · simp [callable, hg, hr2, hreach]
          · rw [Bool.not_eq_true] at hreach
            simp [callable, hg, hr1, hreach] at hsome

/-- Witness for callable_guard_monotone: a live entry is never returned,
and an offline zero-retries entry eligible at elapsed time 0 stays
eligible at elapsed time 5. -/
theorem callable_guard_monotone_witness :
    (callable 42 4 2 none 0 ⟨[1], 0, 0, true⟩).1 = none ∧
    ((callable 42 4 2 none 5 ⟨[1], 0, 0, false⟩).1).isSome = true := by
  constructor
  · exact (callable_guard_monotone 42 4 2 none ⟨[1], 0, 0, true⟩ 0 0).1
      (Or.inl rfl)
  · exact (callable_guard_monotone 42 4 2 none ⟨[1], 0, 0, false⟩ 0 5).2
      (by decide) (by decide) (by decide)

/-- C2: forwarding two messages with the same cache digest: while the
flood-guard entry recorded by a first forward that reached at least one
peer is unexpired, a second forward of the same digest sends to no peer
and leaves the state unchanged (so across the two calls each distinct
peer sees at most one send attempt, the first call's attempts being
duplicate-free); once the entry's expiry has passed, a repeated forward
attempts sends again. -/
theorem forward_dedup (ps : Pss) (now1 now2 : Nat) (msg msg2 : PssMsg)
    (hdig : msgDigest ps msg2 = msgDigest ps msg)
    (hsent : 0 < (forward ps now1 msg).sent) :
    (now2 < now1 + ps.cacheTTL →
      forward (forward ps now1 msg).ps now2 msg2
        = ⟨(forward ps now1 msg).ps, [], 0⟩) ∧
    (ps.conns.Nodup → (forward ps now1 msg).attempted.Nodup) ∧
    (now1 + ps.cacheTTL ≤ now2 → ps.conns ≠ [] →
      (forward (forward ps now1 msg).ps now2 msg2).attempted ≠ []) := by
  obtain ⟨hnb, hps⟩ := forward_sent_pos ps now1 msg hsent
  have hstore : (forward ps now1 msg).ps.store = ps.store := by rw [hps]
  have hconns : (forward ps now1 msg).ps.conns = ps.conns := by rw [hps]
  have hcache : (forward ps now1 msg).ps.fwdCache
      = addFwdCache ps.fwdCache now1 ps.cacheTTL (msgDigest ps msg) := by
    rw [hps]
  have hdig2 : msgDigest (forward ps now1 msg).ps msg2 = msgDigest ps msg := by
    simp only [msgDigest, hstore]
    simpa [msgDigest] using hdig
  have hchk : ∀ (a : List Nat) (n2 : Nat),
      checkFwdCache (forward ps now1 msg).ps.fwdCache n2 a
          (msgDigest (forward ps now1 msg).ps msg2)
        = decide (n2 < now1 + ps.cacheTTL) := by
    intro a n2
    rw [hdig2, hcache, checkFwdCache_addFwdCache_self]
  refine ⟨?_, ?_, ?_⟩
  · intro h2
    exact forward_blocked _ now2 msg2 (by rw [hchk]; simpa using h2)
  · intro hnd
    rw [forward_attempted ps now1 msg hnb]
    simp only [fwdRun]
    exact List.Nodup.sublist
      (fwdLoop_attempted_sublist ps.fwdCache ps.peerSend now1 msg.dest
        (zeroPadTo msg.dest)
        (neighbourhoodDepth ps.baseAddr ps.conns ps.minProxBinSize)
        (msgDigest ps msg) (nearestFirst (zeroPadTo msg.dest) ps.conns))
      (((nearestFirst_perm (zeroPadTo msg.dest) ps.conns).nodup_iff).mpr hnd)
  · intro h2 hcn
    have hnb2 : checkFwdCache (forward ps now1 msg).ps.fwdCache now2 []
        (msgDigest (forward ps now1 msg).ps msg2) = false := by
      rw [hchk]
      simp only [decide_eq_false_iff_not]
      omega
    rw [forward_attempted _ now2 msg2 hnb2]
    simp only [fwdRun]
    obtain ⟨p, rest, hpr⟩ := List.exists_cons_of_ne_nil
      (nearestFirst_ne_nil (zeroPadTo msg2.dest) (forward ps now1 msg).ps.conns
        (by rw [hconns]; exact hcn))
    rw [hpr]
    apply fwdLoop_cons_ne_nil
    · have := proximityOrder_le_256 (zeroPadTo msg2.dest) p
      omega
    · rw [hchk]
      simp only [decide_eq_false_iff_not]
      omega

/-- Concrete node used by the forward_dedup witness: one live peer one
bit away from the base address, all sends succeeding, constant digest. -/
def wps : Pss where
  baseAddr := List.replicate 32 0
  conns := [1 :: List.replicate 31 0]
  minProxBinSize := 2
  msgTTL := 10
  cacheTTL := 5
  paddingByteSize := 16
  fwdCache := []
  symKeyPool := []
  pubKeyPool := []
  symKeyStore := fun _ => none
  keyBytes := fun _ => []
  store := fun _ => some 7
  wrap := fun _ _ _ _ _ => none
  randPadding := none
  peerSend := fun _ => true
  processOk := fun _ => true

def wmsg : PssMsg := ⟨1 :: List.replicate 31 0, 0, 0⟩

/-- Witness for forward_dedup: after a first forward that reached the
peer, repeating the forward at time 3 (within the cache TTL 5) attempts
no send. -/
theorem forward_dedup_witness :
    (forward (forward wps 0 wmsg).ps 3 wmsg).attempted = [] ∧
    (forward (forward wps 0 wmsg).ps 3 wmsg).sent = 0 := by
  have h := (forward_dedup wps 0 3 wmsg wmsg rfl (by decide)).1 (by decide)
  constructor
  · rw [h]
  · rw [h]

/-- Concrete instance refuting the literal C3 stopping condition: peer
cex3p is tried first (send fails), matches neither the strict-prefix
condition nor the neighbourhood-depth condition, yet iteration continues
to cex3q. -/
def cex3p : List Nat := List.replicate 31 0 ++ [1]

def cex3q : List Nat := List.replicate 31 0 ++ [2]

def cex3ps : Pss where
  baseAddr := List.replicate 32 0
  conns := [cex3p, cex3q]
  minProxBinSize := 2
  msgTTL := 10
  cacheTTL := 5
  paddingByteSize := 16
  fwdCache := []
  symKeyPool := []
  pubKeyPool := []
  symKeyStore := fun _ => none
  keyBytes := fun _ => []
  store := fun _ => some 3
  wrap := fun _ _ _ _ _ => none
  randPadding := none
  peerSend := fun a => a == cex3q
  processOk := fun _ => true

def cex3msg : PssMsg := ⟨[255], 0, 0⟩

/-- Counterexample to C3 as stated: during forward, peer cex3p is tried,
its send attempt fails, it satisfies neither the strict-prefix condition
nor the neighbourhood-depth condition, and yet iteration does not stop at
it: the next peer cex3q is also tried. -/
theorem forward_stop_counterexample :
    cex3ps.peerSend cex3p = false ∧
    cex3p ∈ (forward cex3ps 0 cex3msg).attempted ∧
    ¬ partialMatch cex3msg.dest cex3p ∧
    proximityOrder (zeroPadTo cex3msg.dest) cex3p
      < neighbourhoodDepth cex3ps.baseAddr cex3ps.conns cex3ps.minProxBinSize ∧
    (forward cex3ps 0 cex3msg).attempted ≠ [cex3p] ∧
    (forward cex3ps 0 cex3msg).attempted = [cex3p, cex3q] := by
  decide

/-- C3 (amended): during forward (when the flood-guard pre-check does not
drop the message), the peers tried are exactly the live peers nearest the
zero-padded destination, skipping those beyond the proximity cap or with
a per-peer cache hit, truncated after the first tried peer for which the
send succeeded and that neither matches the strict-prefix condition nor
lies within the current neighbourhood depth; iteration continues past a
tried peer exactly when the send attempt failed, the strict-prefix
condition holds, or the peer is within neighbourhood depth. -/
theorem forward_stop_characterization (ps : Pss) (now : Nat) (msg : PssMsg)
    (hnb : checkFwdCache ps.fwdCache now [] (msgDigest ps msg) = false) :
    (forward ps now msg).attempted
      = takeThrough
          (fwdContinue ps.peerSend msg.dest (zeroPadTo msg.dest)
            (neighbourhoodDepth ps.baseAddr ps.conns ps.minProxBinSize))
          ((nearestFirst (zeroPadTo msg.dest) ps.conns).filter
            (fwdVisitable ps.fwdCache now (zeroPadTo msg.dest)
              (msgDigest ps msg))) := by
  rw [forward_attempted ps now msg hnb]
  simp only [fwdRun]
  exact fwdLoop_eq_takeThrough ps.fwdCache ps.peerSend now msg.dest
    (zeroPadTo msg.dest)
    (neighbourhoodDepth ps.baseAddr ps.conns ps.minProxBinSize)
    (msgDigest ps msg) (nearestFirst (zeroPadTo msg.dest) ps.conns)

/-- Witness for forward_stop_characterization at the concrete cex3
instance. -/
theorem forward_stop_characterization_witness :
    (forward cex3ps 0 cex3msg).attempted
      = takeThrough
          (fwdContinue cex3ps.peerSend cex3msg.dest (zeroPadTo cex3msg.dest)
            (neighbourhoodDepth cex3ps.baseAddr cex3ps.conns
              cex3ps.minProxBinSize))
          ((nearestFirst (zeroPadTo cex3msg.dest) cex3ps.conns).filter
            (fwdVisitable cex3ps.fwdCache 0 (zeroPadTo cex3msg.dest)
              (msgDigest cex3ps cex3msg))) :=
  forward_stop_characterization cex3ps 0 cex3msg (by decide)

/-- Concrete node for the inbound-handling claims: one live peer, local
processing always failing to decrypt. -/
def cex6peer : List Nat := 1 :: List.replicate 31 0

def cex6ps : Pss where
  baseAddr := List.replicate 32 0
  conns := [cex6peer]
  minProxBinSize := 2
  msgTTL := 10
  cacheTTL := 5
  paddingByteSize := 16
  fwdCache := []
  symKeyPool := []
  pubKeyPool := []
  symKeyStore := fun _ => none
  keyBytes := fun _ => []
  store := fun _ => some 4
  wrap := fun _ _ _ _ _ => none
  randPadding := none
  peerSend := fun _ => true
  processOk := fun _ => false

def cex6msg : PssMsg := ⟨List.replicate 32 0, 1000, 0⟩

/-- Counterexample to C6 as stated: an inbound PssMsg whose destination
prefix-matches the local address and whose expiry lies far beyond
now + msgTTL is not rejected with the Invalid TTL error; it is handled on
the process path and forwarded, with a send attempted to the live peer. -/
theorem handlePssMsg_ttl_counterexample :
    100 + cex6ps.msgTTL < cex6msg.expire ∧
    (handlePssMsg cex6ps 100 cex6msg).map HandleOutcome.isInvalidTTL
      = some false ∧
    (handlePssMsg cex6ps 100 cex6msg).map HandleOutcome.didForward
      = some true ∧
    (handlePssMsg cex6ps 100 cex6msg).map HandleOutcome.attemptedPeers
      = some [cex6peer] := by
  decide

/-- C6 (amended): for every inbound PssMsg for which the node is not a
possible recipient (the destination does not prefix-match the local
address), one whose embedded expiry lies more than msgTTL in the future
is rejected by handlePssMsg with the Invalid TTL error rather than
forwarded or silently dropped, while one whose expiry has already passed
is dropped silently with a nil result and no forward; messages that
prefix-match the local address bypass both expiry checks. -/
theorem handlePssMsg_ttl_amended (ps : Pss) (now : Nat) (msg : PssMsg)
    (hrec : isSelfPossibleRecipient ps.baseAddr msg.dest = some false) :
    (now + ps.msgTTL < msg.expire →
      handlePssMsg ps now msg = some HandleOutcome.invalidTTL) ∧
    (msg.expire < now →
      handlePssMsg ps now msg = some HandleOutcome.droppedExpired) := by
  constructor
  · intro h
    have hne : ¬ msg.expire < now := by omega
    simp [handlePssMsg, hrec, hne, h]
  · intro h
    simp [handlePssMsg, hrec, h]

/-- Witness for handlePssMsg_ttl_amended: a non-matching destination with
expiry 1000 at time 100 (TTL 10) yields Invalid TTL; with expiry 50 it is
silently dropped. -/
theorem handlePssMsg_ttl_amended_witness :
    handlePssMsg cex6ps 100 ⟨[7], 1000, 0⟩ = some HandleOutcome.invalidTTL ∧
    handlePssMsg cex6ps 100 ⟨[7], 50, 0⟩ = some HandleOutcome.droppedExpired := by
  constructor
  · exact (handlePssMsg_ttl_amended cex6ps 100 ⟨[7], 1000, 0⟩ (by decide)).1
      (by decide)
  · exact (handlePssMsg_ttl_amended cex6ps 100 ⟨[7], 50, 0⟩ (by decide)).2
      (by decide)

/-- C9: handlePssMsg, via isSelfPossibleRecipient, is total exactly on
messages whose To field is no longer than the node's overlay address: the
recipient check slices the base address to len(msg.To) and the slice is
out of range (a panic, embedded as none) for every longer To field. -/
theorem handlePssMsg_total_iff (ps : Pss) (now : Nat) (msg : PssMsg)
    (hbase : ps.baseAddr.length = addressLength) :
    (handlePssMsg ps now msg).isSome ↔ msg.dest.length ≤ addressLength := by
  rw [← hbase]
  constructor
  · intro h
    by_contra hlen
    have hrec : isSelfPossibleRecipient ps.baseAddr msg.dest = none := by
      simp [isSelfPossibleRecipient, hlen]
    simp [handlePssMsg, hrec] at h
  · intro hlen
    cases hrec : isSelfPossibleRecipient ps.baseAddr msg.dest with
    | none =>
      exfalso
      simp [isSelfPossibleRecipient, hlen] at hrec
    | some b =>
      cases b
      · simp only [handlePssMsg, hrec]
        split_ifs <;> simp
      · simp only [handlePssMsg, hrec]
        split_ifs <;> simp

/-- Witness for handlePssMsg_total_iff: a 33-byte destination makes
handlePssMsg panic (none), a 1-byte destination does not. -/
theorem handlePssMsg_total_iff_witness :
    ¬ ((handlePssMsg cex6ps 0 ⟨List.replicate 33 0, 0, 0⟩).isSome = true) ∧
    (handlePssMsg cex6ps 0 ⟨[0], 0, 0⟩).isSome = true := by
  constructor
  · intro hs
    exact absurd
      ((handlePssMsg_total_iff cex6ps 0 ⟨List.replicate 33 0, 0, 0⟩ rfl).mp hs)
      (by decide)
  · exact (handlePssMsg_total_iff cex6ps 0 ⟨[0], 0, 0⟩ rfl).mpr (by decide)

/-- Concrete node whose chunk store always fails. -/
def cex8ps : Pss where
  baseAddr := List.replicate 32 0
  conns := [2 :: List.replicate 31 0]
  minProxBinSize := 2
  msgTTL := 10
  cacheTTL := 50
  paddingByteSize := 16
  fwdCache := []
  symKeyPool := []
  pubKeyPool := []
  symKeyStore := fun _ => none
  keyBytes := fun _ => []
  store := fun _ => none
  wrap := fun _ _ _ _ _ => none
  randPadding := none
  peerSend := fun _ => true
  processOk := fun _ => true

def cex8msg1 : PssMsg := ⟨2 :: List.replicate 31 0, 0, 0⟩

def cex8msg2 : PssMsg := ⟨3 :: List.replicate 31 0, 5, 9⟩

/-- C8: evaluation of forward at the failing input.  When the chunk-store
digest computation fails for cex8msg1, forward still sends to the peer,
but it records the all-zero digest in the flood-guard cache; a second,
distinct message whose digest computation also fails is then silently
blocked (zero send attempts) within the cache TTL.  This contradicts the
claim that on a store failure the cache neither blocks the message nor
gains an entry for it. -/
theorem storeFail_cache_theorem :
    cex8ps.store cex8msg1 = none ∧
    cex8ps.store cex8msg2 = none ∧
    cex8msg1 ≠ cex8msg2 ∧
    (forward cex8ps 10 cex8msg1).sent = 1 ∧
    (forward cex8ps 10 cex8msg1).ps.fwdCache = [(zeroDigest, ⟨some 60, []⟩)] ∧
    (forward (forward cex8ps 10 cex8msg1).ps 11 cex8msg2).attempted = [] ∧
    (forward (forward cex8ps 10 cex8msg1).ps 11 cex8msg2).sent = 0 := by
  decide

/-- Concrete node for the sending claims: a pub-key binding with a
routing hint, non-empty decoded key bytes, and a whisper backend whose
envelope construction fails. -/
def cex7ps : Pss where
  baseAddr := List.replicate 32 0
  conns := []
  minProxBinSize := 2
  msgTTL := 10
  cacheTTL := 5
  paddingByteSize := 16
  fwdCache := []
  symKeyPool := []
  pubKeyPool := [((5, 0), ⟨some [1, 2], false⟩)]
  symKeyStore := fun _ => none
  keyBytes := fun _ => [9]
  store := fun _ => some 0
  wrap := fun _ _ _ _ _ => none
  randPadding := some (List.replicate 16 0)
  peerSend := fun _ => true
  processOk := fun _ => true

/-- Counterexample to C7 as stated: with key id 5 resolving to a routing
hint, the underlying send fails (whisper envelope failure), yet sendAsym
returns success (nil error): the send-path error is silently dropped by
the call that requested the send. -/
theorem sendAsym_drop_counterexample :
    send cex7ps 0 [1, 2] 0 [] true (cex7ps.keyBytes 5)
      = Except.error SendErr.wrapFail ∧
    sendAsym cex7ps 0 5 0 [] = Except.ok none :=
  ⟨rfl, rfl⟩

/-- C7 (amended): sendSym and sendAsym return explicit errors when the
key id is unknown for the topic or the binding carries no routing hint,
and send fails immediately on a zero-length key for every collaborator
configuration; sendSym propagates every error from the underlying send to
its caller, but sendAsym discards the result of send and returns success
whenever key id and routing hint resolve. -/
theorem send_errors_amended (ps : Pss) (now : Nat) (id : Nat)
    (topic : Topic) (m : List Nat) :
    (ps.symKeyStore id = none →
      sendSym ps now id topic m = Except.error (SendErr.symKeyMissing id)) ∧
    (∀ key, ps.symKeyStore id = some key →
      plookup ps.symKeyPool id topic = none →
      sendSym ps now id topic m
        = Except.error (SendErr.invalidTopic id topic)) ∧
    (∀ key psp, ps.symKeyStore id = some key →
      plookup ps.symKeyPool id topic = some psp → psp.address = none →
      sendSym ps now id topic m
        = Except.error (SendErr.noAddressHint id topic)) ∧
    (∀ key psp addr, ps.symKeyStore id = some key →
      plookup ps.symKeyPool id topic = some psp → psp.address = some addr →
      sendSym ps now id topic m = send ps now addr topic m false key) ∧
    (∀ dst asym, send ps now dst topic m asym []
      = Except.error SendErr.zeroKey) ∧
    (ps.keyBytes id ≠ [] →
      plookup ps.pubKeyPool id topic = none →
      sendAsym ps now id topic m
        = Except.error (SendErr.invalidTopic id topic)) ∧
    (∀ psp, ps.keyBytes id ≠ [] →
      plookup ps.pubKeyPool id topic = some psp → psp.address = none →
      sendAsym ps now id topic m
        = Except.error (SendErr.noAddressHint id topic)) ∧
    (∀ psp addr, ps.keyBytes id ≠ [] →
      plookup ps.pubKeyPool id topic = some psp → psp.address = some addr →
      ∃ r, sendAsym ps now id topic m = Except.ok r) := by
  refine ⟨?_, ?_, ?_, ?_, ?_, ?_, ?_, ?_⟩
  · intro h
    simp [sendSym, h]
  · intro key h1 h2
    simp [sendSym, h1, h2]
  · intro key psp h1 h2 h3
    simp [sendSym, h1, h2, h3]
  · intro key psp addr h1 h2 h3
    simp [sendSym, h1, h2, h3]
  · intro dst asym
    simp [send]
  · intro h1 h2
    simp [sendAsym, h1, h2]
  · intro psp h1 h2 h3
    simp [sendAsym, h1, h2, h3]
  · intro psp addr h1 h2 h3
    refine ⟨(match send ps now addr topic m true (ps.keyBytes id) with
      | Except.ok out => some out
      | Except.error _ => none), ?_⟩
    simp [sendAsym, h1, h2, h3]

/-- Witness for send_errors_amended: a missing symmetric key id yields an
explicit error, a zero-length key makes send fail immediately, and
sendAsym reports success for the resolvable key id 5 even though the
underlying send fails (see sendAsym_drop_counterexample). -/
theorem send_errors_amended_witness :
    sendSym cex7ps 0 3 0 [] = Except.error (SendErr.symKeyMissing 3) ∧
    send cex7ps 0 [] 0 [] false [] = Except.error SendErr.zeroKey ∧
    ∃ r, sendAsym cex7ps 0 5 0 [] = Except.ok r := by
  have h5 := send_errors_amended cex7ps 0 5 0 []
  have h3 := send_errors_amended cex7ps 0 3 0 []
  refine ⟨h3.1 rfl, h5.2.2.2.2.1 [] false, ?_⟩
  exact h5.2.2.2.2.2.2.2 ⟨some [1, 2], false⟩ [1, 2] (by decide) (by decide) rfl

end PssDemo
